import Mathlib

/-!
Verification of the bottled-lightning key-value record codec.

The Go source is shallowly embedded as follows.

* A byte stream is a `List Nat`; on the wire every element is a byte
  (`< 256`), and every byte the model itself produces is reduced `% 256`.
  Big-endian reconstruction of a machine word from bytes, written in the
  source with shifts and ors over bytes, coincides with the positional
  arithmetic (`b0 * 256 + b1`) used here, since the summands occupy
  disjoint bit ranges.
* Machine integers are `Nat` with explicit `% 2 ^ w` where a Go
  conversion (`uint16(...)`, `uint32(...)`, `byte(...)`) truncates.
* A `hash.Hash32` is a pure function `List Nat → Nat` of the bytes
  written into the accumulator since the last `Reset`; `Sum32` is its
  value reduced `% 2 ^ 32` (`sum32`).  Both the encoder and the decoder
  write the key bytes and then the value bytes before summing, so the
  accumulator value is the hash of `key ++ val`.
* Errors are the inductive `GoErr`.  `fmt.Errorf("%s: %w", ...)` in
  `errorf` becomes the `GoErr.wrap` constructor, and `errors.Is e io.EOF`
  becomes `errIsEOF`.  The `panic` in `findX` is modelled by `findX`
  returning `none`, which `encodeGo` surfaces as `GoErr.panicMaxValLen`.
* Reads mirror the readers used by the package (`bytes.Buffer`):
  `binary.Read` uses `io.ReadFull` semantics (`binRead16`, `binRead32`:
  `io.EOF` on an empty stream, `io.ErrUnexpectedEOF` on a partial word),
  while `Decoder.readV`, `readKey` and `readVal` issue a single
  `io.Reader.Read` into a zero-initialised buffer and ignore the byte
  count (`bufRead`: `io.EOF` only when the stream is empty, otherwise the
  available bytes with the rest of the buffer left zero).
  `io.CopyN(io.Discard, r, 4)` is `copyN4`.
* Go's named return values are kept: `decodeGo` returns the key, value
  and tag components exactly as `Decoder.decode` leaves them on every
  error path, together with the error and the unread remainder of the
  stream.  `encodeGo` returns the bytes written to the destination
  before any failure, together with the failure.
-/

/-- Model of `hash.Hash32`: the digest as a function of the accumulated
bytes. -/
def HashFn : Type := List Nat → Nat

/-- Errors produced by the codec.  `eof` is `io.EOF`, `unexpectedEOF` is
`io.ErrUnexpectedEOF` (a partial `binary.Read`), `checksumMismatch` is
the `fmt.Errorf` in `Decoder.verifyChecksum`, `keyTooLong` and
`valTooLong` are the two `fmt.Errorf` in `Encoder.validateLens`,
`panicMaxValLen` is the `panic` in `findX`, and `wrap msg e` is
`fmt.Errorf("%s: %w", msg, e)` from `errorf`. -/
inductive GoErr where
  | eof
  | unexpectedEOF
  | checksumMismatch
  | keyTooLong
  | valTooLong
  | panicMaxValLen
  | wrap (msg : String) (e : GoErr)
deriving DecidableEq, Repr

/-- The prefix `errorf` attaches in `Decoder.decode`. -/
def decodeMsg : String := "could not decode record"

/-- Model of `errors.Is e io.EOF`: unwrap `wrap` and compare with `eof`. -/
def errIsEOF : GoErr → Bool
  | GoErr.eof => true
  | GoErr.wrap _ e => errIsEOF e
  | _ => false

/-- Model of `errors.Is e io.ErrUnexpectedEOF`. -/
def errIsUnexpectedEOF : GoErr → Bool
  | GoErr.unexpectedEOF => true
  | GoErr.wrap _ e => errIsUnexpectedEOF e
  | _ => false

/-- `Sum32` of a `hash.Hash32` that has accumulated `bs`: the digest is a
`uint32`. -/
def sum32 (h : HashFn) (bs : List Nat) : Nat := h bs % 4294967296

/-- `findX` from the encoder: the minimum number of bytes needed to encode
the length of a slice (the source switches on `l < 1<<8`, `l < 1<<16`,
`l < 1<<24`, `l < 1<<32`).  `none` models the `panic` in the default
case. -/
def findX (l : Nat) : Option Nat :=
  if l < 256 then some 1
  else if l < 65536 then some 2
  else if l < 16777216 then some 3
  else if l < 4294967296 then some 4
  else none

/-- `Encoder.validateLens`: `len(key) > lmdbMaxKeyLen` (511) is rejected
first, then `len(val) > lmdbMaxValLen` (`1 << 32`). -/
def validateLens (key val : List Nat) : Option GoErr :=
  if key.length > 511 then some GoErr.keyTooLong
  else if val.length > 4294967296 then some GoErr.valTooLong
  else none

/-- The 16-bit header word `x|c|m|k` built in `Encoder.writeXCMK`:
`x = uint16(findX(val)%4) << 14`, `c = uint16(1) << 13` (zeroed when the
hasher is nil), `m = uint16(xmv) << 9` for the `byte`-typed tag, and
`k = uint16(len(key))`.  Each `uint16` conversion is `% 65536` and the
`byte` value is `% 256`. -/
def headerWord (fx : Nat) (c : Bool) (xmv klen : Nat) : Nat :=
  (((fx % 4) <<< 14) % 65536) |||
    (if c then 8192 else 0) |||
    ((((xmv % 256) <<< 9) % 65536)) |||
    (klen % 65536)

/-- Big-endian `binary.BigEndian.PutUint32`: the four bytes of a
`uint32`. -/
def be4 (v : Nat) : List Nat :=
  [v / 16777216 % 256, v / 65536 % 256, v / 256 % 256, v % 256]

/-- Big-endian `binary.BigEndian.Uint32` over a 4-byte buffer (bytes are
`< 256`, so the source's shift-and-or reconstruction is this positional
sum). -/
def beNat (l : List Nat) : Nat := l.foldl (fun a b => a * 256 + b) 0

/-- `Encoder.writeXCMK`: the two big-endian bytes of the header word
(`binary.Write` of a `uint16`).  `none` propagates the `panic` of the
`findX` call made while building the bit fields, before anything is
written. -/
def writeXCMK (hasC : Bool) (key val : List Nat) (xmv : Nat) : Option (List Nat) :=
  match findX val.length with
  | none => none
  | some fx =>
    let hdr := headerWord fx hasC xmv key.length
    some [(hdr >>> 8) % 256, hdr % 256]

/-- `Encoder.writeV`: `PutUint32(b, uint32(len(val)))`, then write
`b[4-findX(val):]`. -/
def writeV (val : List Nat) : Option (List Nat) :=
  match findX val.length with
  | none => none
  | some fx => some ((be4 (val.length % 4294967296)).drop (4 - fx))

/-- `Encoder.encode`: validate, then write header, value-length bytes,
key, value, and (iff a hasher is configured) the 4-byte digest of
key-then-value.  The first component is everything written to the
destination stream before returning; the second is the returned error,
with the `findX` panic surfaced as `panicMaxValLen`. -/
def encodeGo (h : Option HashFn) (key val : List Nat) (xmv : Nat) :
    List Nat × Option GoErr :=
  match validateLens key val with
  | some e => ([], some e)
  | none =>
    match writeXCMK h.isSome key val xmv with
    | none => ([], some GoErr.panicMaxValLen)
    | some hdrBytes =>
      match writeV val with
      | none => (hdrBytes, some GoErr.panicMaxValLen)
      | some lenBytes =>
        match h with
        | none => (hdrBytes ++ lenBytes ++ key ++ val, none)
        | some hf =>
          (hdrBytes ++ lenBytes ++ key ++ val ++ be4 (sum32 hf (key ++ val)),
            none)

/-- `Encoder.Encode`: `encode` with `XMetaValue0`. -/
def Encode (h : Option HashFn) (key val : List Nat) : List Nat × Option GoErr :=
  encodeGo h key val 0

/-- `Encoder.EncodeX`: `encode` with a caller-chosen tag. -/
def EncodeX (h : Option HashFn) (key val : List Nat) (xmv : Nat) :
    List Nat × Option GoErr :=
  encodeGo h key val xmv

/-- `binary.Read` of a big-endian `uint16` (`io.ReadFull` semantics):
`io.EOF` on an empty stream, `io.ErrUnexpectedEOF` on a single byte. -/
def binRead16 : List Nat → Except GoErr Nat × List Nat
  | [] => (Except.error GoErr.eof, [])
  | [_] => (Except.error GoErr.unexpectedEOF, [])
  | b0 :: b1 :: s => (Except.ok (b0 * 256 + b1), s)

/-- `binary.Read` of a big-endian `uint32` (`io.ReadFull` semantics). -/
def binRead32 : List Nat → Except GoErr Nat × List Nat
  | b0 :: b1 :: b2 :: b3 :: s =>
    (Except.ok (((b0 * 256 + b1) * 256 + b2) * 256 + b3), s)
  | [] => (Except.error GoErr.eof, [])
  | _ => (Except.error GoErr.unexpectedEOF, [])

/-- One `io.Reader.Read` into a fresh zero buffer of length `n`
(`bytes.Buffer` semantics): `io.EOF` only when the buffer is empty and
`n > 0`; otherwise up to `n` bytes are copied and the tail of the buffer
stays zero.  The byte count is ignored by the callers. -/
def bufRead (n : Nat) (s : List Nat) : Except GoErr (List Nat) × List Nat :=
  if n = 0 then (Except.ok [], s)
  else if s.length = 0 then (Except.error GoErr.eof, [])
  else (Except.ok (s.take n ++ List.replicate (n - s.length) 0), s.drop n)

/-- `Decoder.readV`: read `x` bytes into the last `x` cells of a 4-byte
zero buffer and interpret the buffer big-endian. -/
def readV (x : Nat) (s : List Nat) : Except GoErr Nat × List Nat :=
  match bufRead x s with
  | (Except.ok w, s1) => (Except.ok (beNat (List.replicate (4 - x) 0 ++ w)), s1)
  | (Except.error e, s1) => (Except.error e, s1)

/-- `Decoder.readKey`. -/
def readKey (k : Nat) (s : List Nat) : Except GoErr (List Nat) × List Nat :=
  bufRead k s

/-- `Decoder.readVal`. -/
def readVal (v : Nat) (s : List Nat) : Except GoErr (List Nat) × List Nat :=
  bufRead v s

/-- `io.CopyN(io.Discard, reader, 4)`: drain 4 bytes, `io.EOF` when fewer
are available. -/
def copyN4 (s : List Nat) : Except GoErr Unit × List Nat :=
  if s.length < 4 then (Except.error GoErr.eof, [])
  else (Except.ok (), s.drop 4)

/-- `Decoder.readXCMK`: read the header word and unpack
`x = xcmk >> 14` (with `0` decoded as `4`), `c = (xcmk >> 13) & 1 == 1`,
`m = xMetaValue(xcmk >> 9) & XMetaValueF` (the `byte` conversion is
`% 256`), `k = int(xcmk & 511)`. -/
def readXCMK (s : List Nat) : Except GoErr (Nat × Bool × Nat × Nat) × List Nat :=
  match binRead16 s with
  | (Except.error e, s1) => (Except.error e, s1)
  | (Except.ok xcmk, s1) =>
    let x0 := xcmk >>> 14
    (Except.ok
      (if x0 = 0 then 4 else x0,
        (xcmk >>> 13) &&& 1 == 1,
        ((xcmk >>> 9) % 256) &&& 15,
        xcmk &&& 511), s1)

/-- `Decoder.verifyChecksum`: with no hasher, discard exactly 4 trailer
bytes; with a hasher, read the observed digest, hash key-then-value, and
fail with `checksumMismatch` when they differ. -/
def verifyChecksum (g : Option HashFn) (key val : List Nat) (s : List Nat) :
    Except GoErr Unit × List Nat :=
  match g with
  | none => copyN4 s
  | some gf =>
    match binRead32 s with
    | (Except.error e, s1) => (Except.error e, s1)
    | (Except.ok observed, s1) =>
      if sum32 gf (key ++ val) ≠ observed then
        (Except.error GoErr.checksumMismatch, s1)
      else (Except.ok (), s1)

/-- `Decoder.decode` with the `errorf` wrapper: the result mirrors Go's
named return values `(key, val, xmv, e)` on every path (on a failed
`readKey`/`readVal` the zero buffer that Go allocated is what is
returned), paired with the unread remainder of the stream. -/
def decodeGo (g : Option HashFn) (s : List Nat) :
    ((List Nat × List Nat × Nat) × Option GoErr) × List Nat :=
  match readXCMK s with
  | (Except.error e, s1) => ((([], [], 0), some (GoErr.wrap decodeMsg e)), s1)
  | (Except.ok (x, c, m, k), s1) =>
    match readV x s1 with
    | (Except.error e, s2) => ((([], [], m), some (GoErr.wrap decodeMsg e)), s2)
    | (Except.ok v, s2) =>
      match readKey k s2 with
      | (Except.error e, s3) =>
        (((List.replicate k 0, [], m), some (GoErr.wrap decodeMsg e)), s3)
      | (Except.ok key, s3) =>
        match readVal v s3 with
        | (Except.error e, s4) =>
          (((key, List.replicate v 0, m), some (GoErr.wrap decodeMsg e)), s4)
        | (Except.ok val, s4) =>
          if c then
            match verifyChecksum g key val s4 with
            | (Except.error e, s5) =>
              (((key, val, m), some (GoErr.wrap decodeMsg e)), s5)
            | (Except.ok _, s5) => (((key, val, m), none), s5)
          else (((key, val, m), none), s4)

/-- `Decoder.DecodeX`. -/
def DecodeX (g : Option HashFn) (s : List Nat) :
    ((List Nat × List Nat × Nat) × Option GoErr) × List Nat :=
  decodeGo g s

/-- `Decoder.Decode`: `decode` with the tag discarded. -/
def Decode (g : Option HashFn) (s : List Nat) :
    (List Nat × List Nat × Option GoErr) × List Nat :=
  match decodeGo g s with
  | ((kvm, e), s1) => ((kvm.1, kvm.2.1, e), s1)

/-- Header, value-length bytes, key bytes and value bytes of one frame:
the encoder's output before the optional trailer. -/
def coreBytes (cF : Bool) (key val : List Nat) (xmv : Nat) : List Nat :=
  match findX val.length with
  | none => []
  | some fx =>
    let hdr := headerWord fx cF xmv key.length
    [(hdr >>> 8) % 256, hdr % 256] ++
      (be4 (val.length % 4294967296)).drop (4 - fx) ++ key ++ val

/-- The optional checksum trailer of one frame. -/
def trailerBytes (h : Option HashFn) (key val : List Nat) : List Nat :=
  match h with
  | none => []
  | some hf => be4 (sum32 hf (key ++ val))

/-- The checksum conventions of writer `henc` and reader `hdec` agree on
the bytes `bs`: vacuous unless both are configured, in which case the two
digests must coincide. -/
def verifies (henc hdec : Option HashFn) (bs : List Nat) : Prop :=
  match henc, hdec with
  | some he, some hd => sum32 hd bs = sum32 he bs
  | _, _ => True

/-- The round-trip property of the specification for one record, with the
same checksum configuration on both sides. -/
def RoundTrip (h : Option HashFn) (key val : List Nat) : Prop :=
  ∃ bs, Encode h key val = (bs, none) ∧
    decodeGo h bs = (((key, val, 0), none), [])

/-- Encode a list of records into one stream (all with tag 0); `none` if
any `encode` fails. -/
def encodeAll (h : Option HashFn) : List (List Nat × List Nat) → Option (List Nat)
  | [] => some []
  | p :: rs =>
    match encodeGo h p.1 p.2 0, encodeAll h rs with
    | (bs, none), some s => some (bs ++ s)
    | _, _ => none

/-- Run `decode` `n` times, collecting the records read, and stopping at
the first error. -/
def decodeN (g : Option HashFn) :
    Nat → List Nat → Option GoErr × List (List Nat × List Nat) × List Nat
  | 0, s => (none, [], s)
  | n + 1, s =>
    match decodeGo g s with
    | ((kvm, none), s1) =>
      let r := decodeN g n s1
      (r.1, (kvm.1, kvm.2.1) :: r.2.1, r.2.2)
    | ((_, some e), s1) => (some e, [], s1)

/-- Or of a shifted value with a value fitting below the shift is
addition. -/
theorem or_disjoint {i a b : Nat} (hb : b < 2 ^ i) :
    (2 ^ i * a) ||| b = 2 ^ i * a + b :=
  (Nat.mul_add_lt_is_or hb a).symm

/-- Masking with `15` is reduction modulo 16. -/
theorem and_15_eq_mod (x : Nat) : x &&& 15 = x % 16 := by
  have h := Nat.and_pow_two_sub_one_eq_mod x 4
  norm_num at h
  exact h

/-- Masking with `511` is reduction modulo 512. -/
theorem and_511_eq_mod (x : Nat) : x &&& 511 = x % 512 := by
  have h := Nat.and_pow_two_sub_one_eq_mod x 9
  norm_num at h
  exact h

/-- The packed header word, written as a sum of its disjoint bit
fields. -/
theorem headerWord_eq (fx : Nat) (c : Bool) (m k : Nat)
    (hm : m < 16) (hk : k < 512) :
    headerWord fx c m k =
      16384 * (fx % 4) + (if c then 8192 else 0) + 512 * m + k := by
  have hfx : fx % 4 < 4 := Nat.mod_lt _ (by norm_num)
  have hA : ((fx % 4) <<< 14) % 65536 = 16384 * (fx % 4) := by
    rw [Nat.shiftLeft_eq]
    norm_num
    rw [Nat.mod_eq_of_lt (by omega)]
    ring
  have hC : (((m % 256) <<< 9)) % 65536 = 512 * m := by
    rw [Nat.mod_eq_of_lt (show m < 256 by omega), Nat.shiftLeft_eq]
    norm_num
    rw [Nat.mod_eq_of_lt (by omega)]
    ring
  have hCD : (512 : Nat) * m ||| k = 512 * m + k := by
    have h := or_disjoint (i := 9) (a := m) (b := k) (by norm_num; omega)
    norm_num at h
    exact h
  have hBCD : (if c then (8192 : Nat) else 0) ||| (512 * m + k) =
      (if c then 8192 else 0) + (512 * m + k) := by
    cases c with
    | true =>
      have h := or_disjoint (i := 13) (a := 1) (b := 512 * m + k) (by norm_num; omega)
      norm_num at h ⊢
      exact h
    | false => simp
  have hABCD : (16384 : Nat) * (fx % 4) |||
      ((if c then (8192 : Nat) else 0) + (512 * m + k)) =
      16384 * (fx % 4) + ((if c then 8192 else 0) + (512 * m + k)) := by
    have h := or_disjoint (i := 14) (a := fx % 4)
      (b := (if c then (8192 : Nat) else 0) + (512 * m + k))
      (by rcases c <;> norm_num <;> omega)
    norm_num at h ⊢
    exact h
  have hD : k % 65536 = k := Nat.mod_eq_of_lt (by omega)
  unfold headerWord
  rw [hA, hC, hD, Nat.or_assoc, Nat.or_assoc, hCD, hBCD, hABCD]
  ring

/-- Bit-field extraction from the packed header word, for in-range
fields: the two wire bytes reassemble to the word, and the four fields
come back unchanged (with the width class stored modulo 4). -/
theorem headerWord_fields (fx : Nat) (c : Bool) (m k : Nat)
    (hm : m < 16) (hk : k < 512) :
    ((headerWord fx c m k >>> 8) % 256) * 256 + headerWord fx c m k % 256 =
        headerWord fx c m k ∧
      headerWord fx c m k >>> 14 = fx % 4 ∧
      (headerWord fx c m k >>> 13) &&& 1 = (if c then 1 else 0) ∧
      ((headerWord fx c m k >>> 9) % 256) &&& 15 = m ∧
      headerWord fx c m k &&& 511 = k := by
  have hfx : fx % 4 < 4 := Nat.mod_lt _ (by norm_num)
  rw [headerWord_eq fx c m k hm hk, Nat.and_one_is_mod, and_15_eq_mod,
    and_511_eq_mod, Nat.shiftRight_eq_div_pow, Nat.shiftRight_eq_div_pow,
    Nat.shiftRight_eq_div_pow, Nat.shiftRight_eq_div_pow]
  norm_num
  rcases c <;> norm_num <;> refine ⟨by omega, by omega, by omega, by omega⟩

/-- Inversion of `findX`: a successful width is between 1 and 4, bounds
the length below `2 ^ (8 * width)`, and the length is below `2 ^ 32`. -/
theorem findX_inv (l fx : Nat) (h : findX l = some fx) :
    1 ≤ fx ∧ fx ≤ 4 ∧ l < 2 ^ (8 * fx) ∧ l < 4294967296 := by
  unfold findX at h
  split_ifs at h with h1 h2 h3 h4
  · cases h
    exact ⟨by norm_num, by norm_num, by norm_num; omega, by omega⟩
  · cases h
    exact ⟨by norm_num, by norm_num, by norm_num; omega, by omega⟩
  · cases h
    exact ⟨by norm_num, by norm_num, by norm_num; omega, by omega⟩
  · cases h
    exact ⟨by norm_num, by norm_num, by norm_num; omega, by omega⟩

/-- `findX` succeeds on every length below `2 ^ 32` (the final branch is
ruled out by the bound, so `split_ifs` leaves four cases). -/
theorem findX_total (l : Nat) (hl : l < 4294967296) : ∃ fx, findX l = some fx := by
  unfold findX
  split_ifs with h1 h2 h3
  · exact ⟨1, rfl⟩
  · exact ⟨2, rfl⟩
  · exact ⟨3, rfl⟩
  · exact ⟨4, rfl⟩

/-- A single read that asks for exactly the length of the leading chunk
returns that chunk and leaves the rest. -/
theorem bufRead_exact (n : Nat) (l s : List Nat) (hl : l.length = n) :
    bufRead n (l ++ s) = (Except.ok l, s) := by
  subst hl
  unfold bufRead
  rcases l with _ | ⟨a, l'⟩
  · simp
  · rw [if_neg (by simp), if_neg (by simp)]
    rw [List.take_left, List.drop_left]
    have hz : (a :: l').length - (a :: l' ++ s).length = 0 := by
      simp
    rw [hz]
    simp

/-- Reassembling the written value-length bytes behind the zero padding
recovers the value length. -/
theorem beNat_pad (x v : Nat) (h1 : 1 ≤ x) (h4 : x ≤ 4) (hv : v < 2 ^ (8 * x)) :
    beNat (List.replicate (4 - x) 0 ++ (be4 v).drop (4 - x)) = v := by
  interval_cases x <;>
    simp [be4, beNat, List.replicate] <;> omega

/-- The dropped prefix of `be4` has the complementary length. -/
theorem be4_drop_length (x v : Nat) (h4 : x ≤ 4) :
    ((be4 v).drop (4 - x)).length = x := by
  simp [be4]
  omega

/-- Reading back a 4-byte big-endian word. -/
theorem binRead32_be4 (v : Nat) (s : List Nat) (hv : v < 4294967296) :
    binRead32 (be4 v ++ s) = (Except.ok v, s) := by
  simp [be4, binRead32]
  omega

/-- Reading back a packed header: the width class (with `0` decoded as
4), the checksum flag, the tag and the key length are recovered. -/
theorem readXCMK_spec (fx : Nat) (cF : Bool) (xmv klen : Nat) (tail : List Nat)
    (h1 : 1 ≤ fx) (h4 : fx ≤ 4) (hm : xmv < 16) (hk : klen < 512) :
    readXCMK ((headerWord fx cF xmv klen >>> 8) % 256 ::
        headerWord fx cF xmv klen % 256 :: tail) =
      (Except.ok (fx, cF, xmv, klen), tail) := by
  obtain ⟨e0, e1, e2, e3, e4⟩ := headerWord_fields fx cF xmv klen hm hk
  simp only [readXCMK, binRead16, e0, e1, e2, e3, e4]
  have hx : (if fx % 4 = 0 then 4 else fx % 4) = fx := by
    interval_cases fx <;> norm_num
  have hc : ((if cF then 1 else 0) == 1) = cF := by cases cF <;> rfl
  rw [hx, hc]

/-- Reading back the value-length bytes written for a value length that
fits the chosen width. -/
theorem readV_spec (fx v : Nat) (s : List Nat) (h1 : 1 ≤ fx) (h4 : fx ≤ 4)
    (hv : v < 2 ^ (8 * fx)) :
    readV fx ((be4 v).drop (4 - fx) ++ s) = (Except.ok v, s) := by
  unfold readV
  rw [bufRead_exact fx _ s (be4_drop_length fx v h4)]
  simp only [beNat_pad fx v h1 h4 hv]

/-- Decoding a frame body (header through value bytes) recovers the
record and hands whatever follows the value bytes to the checksum
step (taken iff the flag was written). -/
theorem decodeGo_core (g : Option HashFn) (cF : Bool) (key val : List Nat)
    (xmv : Nat) (ts : List Nat) (hk : key.length ≤ 511)
    (hv : val.length < 4294967296) (hm : xmv ≤ 15) :
    decodeGo g (coreBytes cF key val xmv ++ ts) =
      if cF then
        match verifyChecksum g key val ts with
        | (Except.error e, s5) =>
          (((key, val, xmv), some (GoErr.wrap decodeMsg e)), s5)
        | (Except.ok _, s5) => (((key, val, xmv), none), s5)
      else (((key, val, xmv), none), ts) := by
  obtain ⟨fx, hfx⟩ := findX_total val.length hv
  obtain ⟨hfx1, hfx4, hvx, _⟩ := findX_inv val.length fx hfx
  have hcore : coreBytes cF key val xmv ++ ts =
      (headerWord fx cF xmv key.length >>> 8) % 256 ::
        headerWord fx cF xmv key.length % 256 ::
        ((be4 val.length).drop (4 - fx) ++ (key ++ (val ++ ts))) := by
    simp [coreBytes, hfx, Nat.mod_eq_of_lt hv, List.append_assoc]
  rw [hcore]
  simp only [decodeGo,
    readXCMK_spec fx cF xmv key.length _ hfx1 hfx4 (by omega) (by omega),
    readV_spec fx val.length (key ++ (val ++ ts)) hfx1 hfx4 hvx,
    readKey, readVal,
    bufRead_exact key.length key (val ++ ts) rfl,
    bufRead_exact val.length val ts rfl]

/-- A successful `encode` writes exactly the frame body followed by the
optional trailer. -/
theorem encodeGo_spec (h : Option HashFn) (key val : List Nat) (xmv : Nat)
    (hk : key.length ≤ 511) (hv : val.length < 4294967296) :
    encodeGo h key val xmv =
      (coreBytes h.isSome key val xmv ++ trailerBytes h key val, none) := by
  obtain ⟨fx, hfx⟩ := findX_total val.length hv
  have hval : validateLens key val = none := by
    unfold validateLens
    rw [if_neg (by omega), if_neg (by omega)]
  simp only [encodeGo, hval, writeXCMK, writeV, hfx, coreBytes, trailerBytes]
  cases h <;> simp [List.append_assoc]

/-- Round trip of one frame with an arbitrary suffix: any reader whose
checksum convention agrees with the writer's recovers the record and
leaves the suffix unread. -/
theorem frame_spec (h g : Option HashFn) (key val : List Nat) (xmv : Nat)
    (rest : List Nat) (hk : key.length ≤ 511) (hv : val.length < 4294967296)
    (hm : xmv ≤ 15) (hck : verifies h g (key ++ val)) :
    ∃ bs, encodeGo h key val xmv = (bs, none) ∧
      decodeGo g (bs ++ rest) = (((key, val, xmv), none), rest) := by
  refine ⟨coreBytes h.isSome key val xmv ++ trailerBytes h key val,
    encodeGo_spec h key val xmv hk hv, ?_⟩
  rw [List.append_assoc, decodeGo_core g h.isSome key val xmv
    (trailerBytes h key val ++ rest) hk hv hm]
  cases h with
  | none => simp [trailerBytes]
  | some hf =>
    have hd : sum32 hf (key ++ val) < 4294967296 := Nat.mod_lt _ (by norm_num)
    simp only [Option.isSome_some, if_pos rfl, trailerBytes]
    cases g with
    | none =>
      have hno : ¬((be4 (sum32 hf (key ++ val)) ++ rest).length < 4) := by
        simp [be4]
      have hdrop : (be4 (sum32 hf (key ++ val)) ++ rest).drop 4 = rest :=
        List.drop_left' (by simp [be4])
      simp only [verifyChecksum, copyN4, if_neg hno, hdrop]
      simp
    | some gf =>
      simp only [verifyChecksum]
      rw [binRead32_be4 _ rest hd]
      have hsum : sum32 gf (key ++ val) = sum32 hf (key ++ val) := hck
      have hno : ¬(sum32 gf (key ++ val) ≠ sum32 hf (key ++ val)) := by
        simp [hsum]
      simp only [if_neg hno]
      simp

/-- A frame carrying a digest, read by a verifying reader whose digest
disagrees, fails with `checksumMismatch` wrapped by the decode prefix;
the parsed key and value sit in the returned tuple and the digest bytes
have been consumed. -/
theorem frame_mismatch (hf gf : HashFn) (key val : List Nat) (xmv : Nat)
    (rest bs : List Nat) (hk : key.length ≤ 511) (hv : val.length < 4294967296)
    (hm : xmv ≤ 15) (hne : sum32 gf (key ++ val) ≠ sum32 hf (key ++ val))
    (henc : encodeGo (some hf) key val xmv = (bs, none)) :
    decodeGo (some gf) (bs ++ rest) =
      (((key, val, xmv), some (GoErr.wrap decodeMsg GoErr.checksumMismatch)),
        rest) := by
  rw [encodeGo_spec (some hf) key val xmv hk hv] at henc
  cases henc
  rw [List.append_assoc, decodeGo_core (some gf) (some hf : Option HashFn).isSome
    key val xmv (trailerBytes (some hf) key val ++ rest) hk hv hm]
  have hd : sum32 hf (key ++ val) < 4294967296 := Nat.mod_lt _ (by norm_num)
  simp only [Option.isSome_some, if_pos rfl, trailerBytes, verifyChecksum]
  rw [binRead32_be4 _ rest hd]
  simp [if_pos hne]

/-- The size validator lets a value of length exactly `2 ^ 32` through.
(The value stays abstract so that no proof step ever evaluates a
`2 ^ 32`-element list.) -/
theorem validate_at_boundary (val : List Nat) (hv : val.length = 4294967296) :
    validateLens [] val = none := by
  have h1 : ¬(([] : List Nat).length > 511) := by norm_num
  have h2 : ¬(val.length > 4294967296) := by omega
  unfold validateLens
  rw [if_neg h1, if_neg h2]

/-- Encoding a value of length exactly `2 ^ 32` passes validation but
stops at the `findX` panic with nothing written. -/
theorem encode_at_boundary (h : Option HashFn) (val : List Nat)
    (hv : val.length = 4294967296) :
    encodeGo h [] val 0 = ([], some GoErr.panicMaxValLen) := by
  have hfx : findX val.length = none := by
    rw [hv]
    unfold findX
    norm_num
  have hw : writeXCMK h.isSome [] val 0 = none := by
    unfold writeXCMK
    rw [hfx]
  unfold encodeGo
  rw [validate_at_boundary val hv, hw]

/-- C1: the round trip as claimed fails at a value of length exactly
4294967296, a length the claim admits: `findX` panics inside `encode`
before the header is written, so no byte stream is produced at all. -/
theorem c1_counterexample :
    ([] : List Nat).length ≤ 511 ∧
      (List.replicate 4294967296 0).length ≤ 4294967296 ∧
      ¬ RoundTrip none [] (List.replicate 4294967296 0) := by
  refine ⟨by norm_num, by rw [List.length_replicate], ?_⟩
  rintro ⟨bs, henc, -⟩
  unfold Encode at henc
  rw [encode_at_boundary none (List.replicate 4294967296 0)
    (by rw [List.length_replicate])] at henc
  exact Option.noConfusion (congrArg Prod.snd henc)

/-- C1 (amended): for every key of length at most 511 and value of
length at most 4294967295, encoding and then decoding — with the same
checksum configuration on both sides, configured or not — returns the
original key and value bit for bit. -/
theorem c1_round_trip (h : Option HashFn) (key val : List Nat)
    (hk : key.length ≤ 511) (hv : val.length ≤ 4294967295) :
    RoundTrip h key val := by
  have hck : verifies h h (key ++ val) := by cases h <;> simp [verifies]
  obtain ⟨bs, henc, hdec⟩ :=
    frame_spec h h key val 0 [] hk (by omega) (by norm_num) hck
  rw [List.append_nil] at hdec
  exact ⟨bs, henc, hdec⟩

/-- C1 witness: a concrete round trip through the amended theorem. -/
theorem c1_round_trip_witness :
    ([1] : List Nat).length ≤ 511 ∧ ([2] : List Nat).length ≤ 4294967295 ∧
      RoundTrip none [1] [2] :=
  ⟨by norm_num, by norm_num, c1_round_trip none [1] [2] (by norm_num) (by norm_num)⟩

/-- C2: every length at or beyond `2 ^ 32` makes the width selector take
its failure branch (the explicit panic), and a value of length exactly
4294967296 passes the writer's size validation yet has no width
encoding: `encode` resolves the boundary by stopping at the panic with
nothing written, instead of emitting a malformed frame. -/
theorem c2_boundary :
    (∀ l, 4294967296 ≤ l → findX l = none) ∧
      validateLens [] (List.replicate 4294967296 0) = none ∧
      (∀ h : Option HashFn,
        encodeGo h [] (List.replicate 4294967296 0) 0 =
          ([], some GoErr.panicMaxValLen)) := by
  refine ⟨fun l hl => ?_,
    validate_at_boundary (List.replicate 4294967296 0)
      (by rw [List.length_replicate]),
    fun h => encode_at_boundary h (List.replicate 4294967296 0)
      (by rw [List.length_replicate])⟩
  unfold findX
  split_ifs <;> first | omega | rfl

/-- C2 witness: the width selector fails at the boundary length. -/
theorem c2_boundary_witness : findX 4294967296 = none :=
  c2_boundary.1 4294967296 (by norm_num)

/-- C3: the width selector returns 1 on [0, 255], 2 on [256, 65535], 3
on [65536, 16777215], and 4 on [16777216, 4294967295]. -/
theorem c3_width_boundaries (l : Nat) :
    (l ≤ 255 → findX l = some 1) ∧
      (256 ≤ l → l ≤ 65535 → findX l = some 2) ∧
      (65536 ≤ l → l ≤ 16777215 → findX l = some 3) ∧
      (16777216 ≤ l → l ≤ 4294967295 → findX l = some 4) := by
  refine ⟨fun h => ?_, fun h1 h2 => ?_, fun h1 h2 => ?_, fun h1 h2 => ?_⟩ <;>
    (unfold findX; split_ifs <;> first | rfl | omega)

/-- C3 witness: the width selector at all eight boundary lengths. -/
theorem c3_width_boundaries_witness :
    findX 0 = some 1 ∧ findX 255 = some 1 ∧ findX 256 = some 2 ∧
      findX 65535 = some 2 ∧ findX 65536 = some 3 ∧
      findX 16777215 = some 3 ∧ findX 16777216 = some 4 ∧
      findX 4294967295 = some 4 :=
  ⟨(c3_width_boundaries 0).1 (by norm_num),
    (c3_width_boundaries 255).1 (by norm_num),
    (c3_width_boundaries 256).2.1 (by norm_num) (by norm_num),
    (c3_width_boundaries 65535).2.1 (by norm_num) (by norm_num),
    (c3_width_boundaries 65536).2.2.1 (by norm_num) (by norm_num),
    (c3_width_boundaries 16777215).2.2.1 (by norm_num) (by norm_num),
    (c3_width_boundaries 16777216).2.2.2 (by norm_num) (by norm_num),
    (c3_width_boundaries 4294967295).2.2.2 (by norm_num) (by norm_num)⟩

/-- C7: a key longer than 511 bytes is rejected with the key-length
error, and (for an acceptable key) a value longer than 4294967296 is
rejected with the value-length error; both rejections happen in
`validateLens`, before any byte reaches the stream, so the written
prefix is empty. -/
theorem c7_validation (h : Option HashFn) (key val : List Nat) (xmv : Nat) :
    (key.length > 511 →
        encodeGo h key val xmv = ([], some GoErr.keyTooLong)) ∧
      (key.length ≤ 511 → val.length > 4294967296 →
        encodeGo h key val xmv = ([], some GoErr.valTooLong)) := by
  constructor
  · intro hk
    have hval : validateLens key val = some GoErr.keyTooLong := by
      unfold validateLens
      rw [if_pos hk]
    simp only [encodeGo, hval]
  · intro hk hv
    have h1 : ¬(key.length > 511) := by omega
    have hval : validateLens key val = some GoErr.valTooLong := by
      unfold validateLens
      rw [if_neg h1, if_pos hv]
    simp only [encodeGo, hval]

/-- C7 witness: a 512-byte key and a `2 ^ 32 + 1`-byte value, each
rejected with its own error and an empty written prefix. -/
theorem c7_validation_witness :
    encodeGo none (List.replicate 512 0) [] 0 =
        ([], some GoErr.keyTooLong) ∧
      encodeGo none [] (List.replicate 4294967297 0) 0 =
        ([], some GoErr.valTooLong) :=
  ⟨(c7_validation none (List.replicate 512 0) [] 0).1
      (by rw [List.length_replicate]; omega),
    (c7_validation none [] (List.replicate 4294967297 0) 0).2
      (by norm_num) (by rw [List.length_replicate]; omega)⟩

/-- C4: the claimed discarding of the parsed record does not happen: on
this concrete frame (checksum flag set, declared digest 1, reader hash
constantly 0) `Decode` does fail with the wrapped `checksumMismatch`,
but the key already read, `[65]`, is returned to the caller in the
result tuple rather than discarded. -/
theorem c4_counterexample :
    Decode (some (fun _ => 0)) [96, 1, 0, 65, 0, 0, 0, 1] =
        (([65], [], some (GoErr.wrap decodeMsg GoErr.checksumMismatch)), []) ∧
      ([65] : List Nat) ≠ [] := by
  constructor
  · rfl
  · simp

/-- C4 (amended): a frame written with hash `hf`, read by a verifier
whose digest over key-then-value differs, fails with the wrapped
`checksumMismatch` error after consuming the 4 digest bytes; the parsed
key and value are returned alongside the non-nil error (Go's named
returns), not discarded. -/
theorem c4_checksum_mismatch (hf gf : HashFn) (key val : List Nat)
    (rest bs : List Nat) (hk : key.length ≤ 511)
    (hv : val.length < 4294967296)
    (hne : sum32 gf (key ++ val) ≠ sum32 hf (key ++ val))
    (henc : Encode (some hf) key val = (bs, none)) :
    Decode (some gf) (bs ++ rest) =
      ((key, val, some (GoErr.wrap decodeMsg GoErr.checksumMismatch)),
        rest) := by
  unfold Encode at henc
  have hd := frame_mismatch hf gf key val 0 rest bs hk hv (by norm_num) hne henc
  unfold Decode
  rw [hd]

/-- C4 witness: the amended theorem at a concrete frame. -/
theorem c4_checksum_mismatch_witness :
    Decode (some (fun _ => 1)) ([96, 1, 0, 65, 0, 0, 0, 0] ++ []) =
      (([65], [], some (GoErr.wrap decodeMsg GoErr.checksumMismatch)), []) :=
  c4_checksum_mismatch (fun _ => 0) (fun _ => 1) [65] [] []
    [96, 1, 0, 65, 0, 0, 0, 0] (by norm_num) (by norm_num) (by decide)
    (by decide)

/-- C5: a frame whose header declares key length 2 over a stream holding
only one further byte does not fail with a truncated-stream error: the
single `Read` into the zero key buffer is not checked for a short count,
so `Decode` succeeds, returning the zero-padded key `[65, 0]` and no
error. -/
theorem c5_truncation_not_detected :
    Decode none [64, 2, 0, 65] = (([65, 0], [], none), []) ∧
      decodeGo none [64, 2, 0, 65] = ((([65, 0], [], 0), none), []) := by
  constructor <;> rfl

/-- C9: a frame written by a writer configured with a hash, read by a
reader with no hash, decodes to the original key and value; the 4
trailer bytes are discarded and exactly the suffix after them remains
unread. -/
theorem c9_trailer_discarded (hf : HashFn) (key val : List Nat) (xmv : Nat)
    (bs rest : List Nat) (hk : key.length ≤ 511)
    (hv : val.length < 4294967296) (hm : xmv ≤ 15)
    (henc : encodeGo (some hf) key val xmv = (bs, none)) :
    decodeGo none (bs ++ rest) = (((key, val, xmv), none), rest) := by
  have hck : verifies (some hf) none (key ++ val) := by simp [verifies]
  obtain ⟨bs', henc', hdec⟩ :=
    frame_spec (some hf) none key val xmv rest hk hv hm hck
  have hb : bs' = bs := congrArg Prod.fst (henc'.symm.trans henc)
  rw [hb] at hdec
  exact hdec

/-- C9 witness: a concrete checksummed frame read by a hashless reader,
with a marker byte left in the stream. -/
theorem c9_trailer_discarded_witness :
    decodeGo none ([96, 1, 1, 1, 2, 0, 0, 0, 0] ++ [5]) =
      ((([1], [2], 0), none), [5]) :=
  c9_trailer_discarded (fun _ => 0) [1] [2] 0 [96, 1, 1, 1, 2, 0, 0, 0, 0]
    [5] (by norm_num) (by norm_num) (by norm_num) (by decide)

/-- C6: decoding from the empty stream, or from a stream exactly
exhausted after any list of complete frames, fails on the next read with
the wrapped `io.EOF` condition — recognisable through `errors.Is` and
distinct from the truncated-stream condition — not with
`unexpectedEOF`. -/
theorem c6_end_of_stream (h : Option HashFn) (rs : List (List Nat × List Nat))
    (hb : ∀ p ∈ rs, p.1.length ≤ 511 ∧ p.2.length < 4294967296) :
    ∃ s, encodeAll h rs = some s ∧
      decodeN h rs.length s = (none, rs, []) ∧
      decodeN h (rs.length + 1) s =
        (some (GoErr.wrap decodeMsg GoErr.eof), rs, []) ∧
      errIsEOF (GoErr.wrap decodeMsg GoErr.eof) = true ∧
      errIsUnexpectedEOF (GoErr.wrap decodeMsg GoErr.eof) = false := by
  induction rs with
  | nil => exact ⟨[], rfl, rfl, rfl, rfl, rfl⟩
  | cons p tl ih =>
    obtain ⟨s1, hs1, hN, hN1, he1, he2⟩ :=
      ih (fun q hq => hb q (List.mem_cons_of_mem p hq))
    have hp := hb p (List.mem_cons_self p tl)
    have hck : verifies h h (p.1 ++ p.2) := by cases h <;> simp [verifies]
    obtain ⟨bs, henc, hdec⟩ :=
      frame_spec h h p.1 p.2 0 s1 hp.1 hp.2 (by norm_num) hck
    refine ⟨bs ++ s1, ?_, ?_, ?_, he1, he2⟩
    · unfold encodeAll
      rw [henc, hs1]
    · show decodeN h (tl.length + 1) (bs ++ s1) = (none, p :: tl, [])
      unfold decodeN
      rw [hdec]
      simp [hN]
    · show decodeN h (tl.length + 1 + 1) (bs ++ s1) =
        (some (GoErr.wrap decodeMsg GoErr.eof), p :: tl, [])
      unfold decodeN
      rw [hdec]
      simp [hN1]

/-- C6 witness: one frame followed by a clean end of stream. -/
theorem c6_end_of_stream_witness :
    ∃ s, encodeAll none [([1], [2])] = some s ∧
      decodeN none 1 s = (none, [([1], [2])], []) ∧
      decodeN none 2 s =
        (some (GoErr.wrap decodeMsg GoErr.eof), [([1], [2])], []) ∧
      errIsEOF (GoErr.wrap decodeMsg GoErr.eof) = true ∧
      errIsUnexpectedEOF (GoErr.wrap decodeMsg GoErr.eof) = false :=
  c6_end_of_stream none [([1], [2])] (by decide)

/-- C8: encoding a 22-byte key with a 693-byte value on a hashing writer
emits exactly the header bytes 0b10100000 0b00010110 (width class 2,
checksum flag 1, tag 0, key length 22), the two big-endian bytes of 693,
the key, the value, and a 4-byte digest; decoding that exact byte
sequence returns the original key and value with the checksum
verified. -/
theorem c8_concrete (hf : HashFn) (key val : List Nat)
    (hk : key.length = 22) (hv : val.length = 693) :
    Encode (some hf) key val =
        ([160, 22] ++ [2, 181] ++ key ++ val ++ be4 (sum32 hf (key ++ val)),
          none) ∧
      (be4 (sum32 hf (key ++ val))).length = 4 ∧
      decodeGo (some hf)
          ([160, 22] ++ [2, 181] ++ key ++ val ++
            be4 (sum32 hf (key ++ val))) =
        (((key, val, 0), none), []) := by
  have hk' : key.length ≤ 511 := by omega
  have hv' : val.length < 4294967296 := by omega
  have hfx : findX val.length = some 2 := by
    rw [hv]
    decide
  have hbytes : [(headerWord 2 true 0 22 >>> 8) % 256,
      headerWord 2 true 0 22 % 256] = [160, 22] := by decide
  have hbe : (be4 (693 % 4294967296)).drop (4 - 2) = [2, 181] := by decide
  have hc : coreBytes true key val 0 = [160, 22] ++ ([2, 181] ++ (key ++ val)) := by
    simp only [coreBytes, hfx]
    rw [hk, hv, hbytes, hbe]
    simp [List.append_assoc]
  have henc := encodeGo_spec (some hf) key val 0 hk' hv'
  simp only [Option.isSome_some, trailerBytes] at henc
  rw [hc] at henc
  refine ⟨?_, by simp [be4], ?_⟩
  · unfold Encode
    rw [henc]
    simp [List.append_assoc]
  · obtain ⟨bs, henc2, hdec⟩ := frame_spec (some hf) (some hf) key val 0 []
      hk' hv' (by norm_num) (by simp [verifies])
    rw [List.append_nil] at hdec
    have hbs : bs = [160, 22] ++ ([2, 181] ++ (key ++ val)) ++
        be4 (sum32 hf (key ++ val)) :=
      congrArg Prod.fst (henc2.symm.trans henc)
    rw [hbs] at hdec
    have hgoal : [160, 22] ++ [2, 181] ++ key ++ val ++
        be4 (sum32 hf (key ++ val)) =
        [160, 22] ++ ([2, 181] ++ (key ++ val)) ++
          be4 (sum32 hf (key ++ val)) := by
      simp [List.append_assoc]
    rw [hgoal]
    exact hdec

/-- C8 witness: the concrete scenario at explicit key and value bytes
and a concrete hash function. -/
theorem c8_concrete_witness :
    decodeGo (some (fun _ => 7))
        ([160, 22] ++ [2, 181] ++ List.replicate 22 1 ++
          List.replicate 693 2 ++
          be4 (sum32 (fun _ => 7)
            (List.replicate 22 1 ++ List.replicate 693 2))) =
      (((List.replicate 22 1, List.replicate 693 2, 0), none), []) :=
  (c8_concrete (fun _ => 7) (List.replicate 22 1) (List.replicate 693 2)
    (by rw [List.length_replicate]) (by rw [List.length_replicate])).2.2

/-- The tag field produced by `readXCMK` is masked to 4 bits. -/
theorem readXCMK_m_le (s : List Nat) (x : Nat) (c : Bool) (m k : Nat)
    (s1 : List Nat) (h : readXCMK s = (Except.ok (x, c, m, k), s1)) :
    m ≤ 15 := by
  unfold readXCMK at h
  rcases hbr : binRead16 s with ⟨res, s2⟩
  rw [hbr] at h
  cases res with
  | error e => simp at h
  | ok w =>
    simp only [Prod.mk.injEq, Except.ok.injEq] at h
    obtain ⟨⟨-, -, hm, -⟩, -⟩ := h
    rw [← hm]
    exact Nat.and_le_right

/-- C10: `EncodeX` performs no range check on the tag: with no hasher,
an in-range empty record, and the out-of-range tag 112, it succeeds and
emits the header bytes 224 0 (then the one value-length byte 0), whose
checksum-present bit (bit 13) is set and whose width-class bits read 3
instead of the written width class 1 — the tag's high bits, shifted left
by 9, overflowed into both fields.  The decoder masks the tag to 4 bits,
so every tag `DecodeX` ever returns is at most 15. -/
theorem c10_tag_overflow :
    EncodeX none [] [] 112 = ([224, 0, 0], none) ∧
      (224 * 256 + 0) >>> 13 &&& 1 = 1 ∧
      (224 * 256 + 0) >>> 14 = 3 ∧
      (∀ g s, (((DecodeX g s).1).1).2.2 ≤ 15) := by
  refine ⟨by decide, by decide, by decide, fun g s => ?_⟩
  unfold DecodeX decodeGo
  rcases hx : readXCMK s with ⟨res, s1⟩
  cases res with
  | error e => simp only [hx]; norm_num
  | ok q =>
    obtain ⟨x, c, m, k⟩ := q
    have hm : m ≤ 15 := readXCMK_m_le s x c m k s1 hx
    simp only [hx]
    rcases h2 : readV x s1 with ⟨rv, s2⟩
    cases rv with
    | error e => simp only [h2]; simpa using hm
    | ok v =>
      simp only [h2]
      rcases h3 : readKey k s2 with ⟨rk, s3⟩
      cases rk with
      | error e => simp only [h3]; simpa using hm
      | ok key =>
        simp only [h3]
        rcases h4 : readVal v s3 with ⟨rl, s4⟩
        cases rl with
        | error e => simp only [h4]; simpa using hm
        | ok val =>
          simp only [h4]
          cases c with
          | false => simpa using hm
          | true =>
            simp only [if_pos rfl]
            rcases h5 : verifyChecksum g key val s4 with ⟨rc, s5⟩
            cases rc with
            | error e => simp only [h5]; simpa using hm
            | ok u => simp only [h5]; simpa using hm
